import Mathlib

/-!
# ShimiBot — verification of the tool-calling agent runtime

A shallow embedding, in Lean 4, of the security- and correctness-critical
parts of the ShimiBot agent runtime (Go), together with theorems settling
the specification's claims about them:

* JSON argument normalization (`NormalizeJSONArguments`, `extractBalancedJSON`)
* path confinement (`EnsurePathAllowed`, `resolveRealPath`, `findExistingParent`)
* outbound network policy (`EnsureOutboundURLAllowed`, `isPrivateOrLocalIP`)
* the tool registry and response-envelope boundary (`Registry.Execute`,
  `SuccessEnvelope`, `ErrorEnvelope`)
* the turn runner (`RunPrompt`)
* the `EditPatch` tool core and the Bash command policy
* the session store key validation (`normalizeSessionID`, `sessionFilePath`)

Pure Go functions become Lean functions over `String` / `List Char` /
`List String`.  Effectful operations (filesystem lookup, DNS resolution,
the completion provider, regular-expression matching from Go's `regexp`
package) are modelled as explicit function parameters, so each theorem
quantifies over every possible behaviour of the effectful collaborator.
Go standard-library helpers (`strings.Count`, `strings.Replace`,
`filepath.Rel`, `net.IP` classification, …) are translated from their
documented semantics, restricted to the inputs the repository feeds them.
-/

namespace ShimiBot

/-- Go `strings.TrimSpace`: strip leading and trailing whitespace.  (Go
trims all Unicode space; the repository only ever feeds it ASCII, so the
ASCII whitespace set of `Char.isWhitespace` is faithful here.)  Defined on
character lists because Lean's own `String.trim` does not reduce inside
the kernel. -/
def trimSpace (s : String) : String :=
  ⟨((s.data.dropWhile Char.isWhitespace).reverse.dropWhile
      Char.isWhitespace).reverse⟩

/-! ## Strings: Go `strings.Count` / `strings.Replace` / `strings.ReplaceAll`

`EditPatchTool.Execute` (edit_patch.go) drives its replacement logic with
`strings.Count`, `strings.Replace(content, old, new, 1)` and
`strings.ReplaceAll`.  All three scan left to right and treat matches
non-overlappingly.  We model strings as their character lists. -/

/-- Scanner for Go `strings.Count`: walk the string left to right; a
positive `skip` marks positions still covered by the previous match (Go
resumes the scan after the matched substring, so matches never overlap). -/
def countOccAux (pat : List Char) : List Char → Nat → Nat
  | [], _ => 0
  | _ :: rest, Nat.succ skip => countOccAux pat rest skip
  | c :: rest, 0 =>
    if pat.isPrefixOf (c :: rest) then
      countOccAux pat rest (pat.length - 1) + 1
    else
      countOccAux pat rest 0

/-- Go `strings.Count(s, pat)` for non-empty `pat`: the number of
non-overlapping instances of `pat` in `s`, scanning left to right.
(`EditPatchTool.Execute` rejects an empty `old_string` before calling it,
so the empty-pattern case is unreachable in this development.) -/
def countOcc (pat s : List Char) : Nat :=
  countOccAux pat s 0

/-- Go `strings.Replace(s, pat, rep, 1)`: replace the first (leftmost)
occurrence of `pat` in `s` by `rep`.  For the empty pattern Go inserts
`rep` before `s`; that case is unreachable from `EditPatchTool.Execute`. -/
def replaceFirstOcc : List Char → List Char → List Char → List Char
  | [], rep, s => rep ++ s
  | _ :: _, _, [] => []
  | p :: ps, rep, c :: rest =>
    if (p :: ps).isPrefixOf (c :: rest) then
      rep ++ rest.drop ps.length
    else
      c :: replaceFirstOcc (p :: ps) rep rest

/-- Scanner for Go `strings.ReplaceAll`: like `countOccAux`, emitting the
replacement at each match and the original character elsewhere; while
`skip` is positive the character belongs to the previous match and is
dropped. -/
def replaceAllAux (pat rep : List Char) : List Char → Nat → List Char
  | [], _ => []
  | _ :: rest, Nat.succ skip => replaceAllAux pat rep rest skip
  | c :: rest, 0 =>
    if pat.isPrefixOf (c :: rest) then
      rep ++ replaceAllAux pat rep rest (pat.length - 1)
    else
      c :: replaceAllAux pat rep rest 0

/-- Go `strings.ReplaceAll(s, pat, rep)` for non-empty `pat`: replace every
non-overlapping occurrence of `pat` in `s` by `rep`, left to right. -/
def replaceAllOcc (pat rep s : List Char) : List Char :=
  replaceAllAux pat rep s 0

/-! ## EditPatch core (edit_patch.go, `EditPatchTool.Execute`)

The replacement logic of `EditPatchTool.Execute`, after argument decode and
path confinement, over the file content read from disk.  The result triple
mirrors the `replacements` / `total_matches` fields of the success map. -/

inductive EditError where
  | emptyOldString
  | oldStringNotFound
deriving DecidableEq, Repr

structure EditResult where
  newContent : String
  replacements : Nat
  totalMatches : Nat
deriving DecidableEq, Repr

/-- `EditPatchTool.Execute` (edit_patch.go lines 64–101), restricted to its
pure core: validation of `old_string`, occurrence counting, and the
first-vs-all replacement over the file content. -/
def editPatchCore (oldString newString : String) (replaceAllFlag : Bool)
    (content : String) : Except EditError EditResult :=
  if oldString = "" then
    .error .emptyOldString
  else
    let occurrences := countOcc oldString.data content.data
    if occurrences = 0 then
      .error .oldStringNotFound
    else if replaceAllFlag then
      .ok ⟨⟨replaceAllOcc oldString.data newString.data content.data⟩,
           occurrences, occurrences⟩
    else
      .ok ⟨⟨replaceFirstOcc oldString.data newString.data content.data⟩,
           1, occurrences⟩

/-! ## Argument normalizer (part_002: `NormalizeJSONArguments`, `extractBalancedJSON`)

`json.Valid` is a Go standard-library predicate; we model it as an opaque
boolean parameter `jsonValid`, so every theorem below holds for every
possible validity predicate.  The repository's own scanning logic
(`extractBalancedJSON`) is embedded in full. -/

def quoteChar : Char := Char.ofNat 34

def backslashChar : Char := Char.ofNat 92

def openBraceChar : Char := Char.ofNat 123

def closeBraceChar : Char := Char.ofNat 125

def openBracketChar : Char := Char.ofNat 91

def closeBracketChar : Char := Char.ofNat 93

/-- Accumulator update: Go slices `input[start:index+1]` at the end, so a
character is part of the candidate span exactly when `start` has been set
(`acc ≠ none`); before that the character is skipped. -/
def spanPush (acc : Option (List Char)) (r : Char) : Option (List Char) :=
  match acc with
  | none => none
  | some l => some (l ++ [r])

/-- The scanning loop of `extractBalancedJSON` (part_002 lines 39–77).
State: `inString`/`escaped` track double-quoted string literals with
backslash escapes, `depth` the nesting depth of `op`/`cl`, and `acc`
plays the role of Go's `start` index (`none` = `start == -1`), holding
the characters of `input[start:index]` so far. -/
def extractLoop (op cl : Char) :
    List Char → Bool → Bool → Nat → Option (List Char) → Option (List Char)
  | [], _, _, _, _ => none
  | r :: rest, inString, escaped, depth, acc =>
    if inString then
      if escaped then
        extractLoop op cl rest true false depth (spanPush acc r)
      else if r = backslashChar then
        extractLoop op cl rest true true depth (spanPush acc r)
      else if r = quoteChar then
        extractLoop op cl rest false false depth (spanPush acc r)
      else
        extractLoop op cl rest true false depth (spanPush acc r)
    else if r = quoteChar then
      extractLoop op cl rest true false depth (spanPush acc r)
    else if r = op then
      match acc with
      | none => extractLoop op cl rest false false (depth + 1) (some [r])
      | some l => extractLoop op cl rest false false (depth + 1) (some (l ++ [r]))
    else if r = cl then
      if depth = 0 then
        extractLoop op cl rest false false 0 (spanPush acc r)
      else
        match acc with
        | some l =>
          if depth - 1 = 0 then
            some (l ++ [r])
          else
            extractLoop op cl rest false false (depth - 1) (some (l ++ [r]))
        | none => extractLoop op cl rest false false (depth - 1) none
    else
      extractLoop op cl rest false false depth (spanPush acc r)

/-- `extractBalancedJSON(input, open, close)` (part_002 lines 33–80):
the first balanced `op…cl` span of `input`, skipping occurrences inside
double-quoted string literals (honoring backslash escapes), finally
passed through `strings.TrimSpace`. -/
def extractBalancedJSON (input : String) (op cl : Char) : Option String :=
  (extractLoop op cl input.data false false 0 none).map fun l => trimSpace (String.mk l)

/-- `NormalizeJSONArguments` (part_002 lines 8–31), parametric in the Go
standard-library predicate `json.Valid`. -/
def NormalizeJSONArguments (jsonValid : String → Bool) (raw : String) :
    String × Bool :=
  let trimmed := trimSpace raw
  if trimmed = "" then
    ("\x7b\x7d", true)
  else if jsonValid trimmed then
    (trimmed, true)
  else
    let braceAttempt :=
      match extractBalancedJSON trimmed openBraceChar closeBraceChar with
      | some extracted => if jsonValid extracted then some extracted else none
      | none => none
    match braceAttempt with
    | some extracted => (extracted, true)
    | none =>
      let bracketAttempt :=
        match extractBalancedJSON trimmed openBracketChar closeBracketChar with
        | some extracted => if jsonValid extracted then some extracted else none
        | none => none
      match bracketAttempt with
      | some extracted => (extracted, true)
      | none => ("", false)

/-! ## LLM data model (internal/llm/types.go) -/

inductive Role where
  | system
  | user
  | assistant
  | tool
deriving DecidableEq, Repr

structure ToolCall where
  id : String
  name : String
  arguments : String
deriving DecidableEq, Repr

structure Message where
  role : Role
  content : String
  toolCallID : String
  toolCalls : List ToolCall
deriving DecidableEq, Repr

/-- Assistant message shorthand (Go zero values for the unused fields). -/
def mkAssistantMessage (content : String) (toolCalls : List ToolCall) : Message :=
  ⟨.assistant, content, "", toolCalls⟩

/-- User message shorthand. -/
def mkUserMessage (content : String) : Message :=
  ⟨.user, content, "", []⟩

/-- Tool-result message shorthand. -/
def mkToolMessage (content : String) (toolCallID : String) : Message :=
  ⟨.tool, content, toolCallID, []⟩

/-! ## Session store (part_007: `normalizeSessionID`, `sessionFilePath`,
`JSONFileStore.Load`, `JSONFileStore.Save`)

File I/O (`os.ReadFile`, `os.WriteFile`, `os.MkdirAll`) and JSON
(un)marshalling are modelled as function parameters, so the theorems hold
for every behaviour of the filesystem. -/

/-- First character of the session-ID pattern `[A-Za-z0-9]`. -/
def isSessionIDStart (c : Char) : Bool :=
  c.isAlpha || c.isDigit

/-- Subsequent characters of the session-ID pattern `[A-Za-z0-9_-]`. -/
def isSessionIDChar (c : Char) : Bool :=
  c.isAlpha || c.isDigit || c = '_' || c = '-'

/-- The Go regular expression `^[A-Za-z0-9][A-Za-z0-9_-]\x7b0,127\x7d$`
(part_007 line 18) as a decidable predicate: an alphanumeric first
character followed by at most 127 characters from `[A-Za-z0-9_-]`. -/
def validSessionID (s : String) : Bool :=
  match s.data with
  | [] => false
  | c :: rest => isSessionIDStart c && rest.length ≤ 127 && rest.all isSessionIDChar

/-- `normalizeSessionID` (part_007 lines 50–61): trim; blank is allowed
(and means "no session"); otherwise the ID must match the pattern. -/
def normalizeSessionID (sessionID : String) : Except String String :=
  let trimmed := trimSpace sessionID
  if trimmed = "" then
    .ok ""
  else if validSessionID trimmed then
    .ok trimmed
  else
    .error "invalid session id: use 1-128 chars [A-Za-z0-9_-], starting with alphanumeric"

/-- `filepath.Join(dir, file)` for the session store.  For a non-empty
clean `dir` and a file name free of separators and dot segments — the only
inputs `sessionFilePath` produces — Go's `Join` is plain concatenation
with one separator. -/
def joinPath (dir file : String) : String :=
  dir ++ "/" ++ file

/-- `JSONFileStore.sessionFilePath` (part_007 lines 63–69). -/
def sessionFilePath (sessionsDir sessionID : String) : Except String String :=
  match normalizeSessionID sessionID with
  | .error e => .error e
  | .ok normalizedSessionID => .ok (joinPath sessionsDir (normalizedSessionID ++ ".json"))

inductive FileReadErr where
  | notExist
  | other
deriving DecidableEq, Repr

inductive StoreErr where
  | invalidSessionID
  | ioErr
  | parseErr
deriving DecidableEq, Repr

/-- `JSONFileStore.Load` (part_007 lines 71–100) with the filesystem read
and `json.Unmarshal` as parameters.  A missing file yields an empty
history; a blank ID short-circuits to an empty history without touching
the filesystem. -/
def loadSession (sessionsDir : String)
    (readFile : String → Except FileReadErr String)
    (unmarshal : String → Except Unit (List Message))
    (sessionID : String) : Except StoreErr (List Message) :=
  match normalizeSessionID sessionID with
  | .error _ => .error .invalidSessionID
  | .ok normalizedSessionID =>
    if normalizedSessionID = "" then
      .ok []
    else
      match sessionFilePath sessionsDir normalizedSessionID with
      | .error _ => .error .invalidSessionID
      | .ok path =>
        match readFile path with
        | .error .notExist => .ok []
        | .error .other => .error .ioErr
        | .ok raw =>
          match unmarshal raw with
          | .error _ => .error .parseErr
          | .ok messages => .ok messages

/-- `JSONFileStore.Save` (part_007 lines 102–127) with `json.MarshalIndent`,
`os.MkdirAll` and `os.WriteFile` as parameters.  A blank ID is a no-op;
an invalid ID errors before any of the three effects run. -/
def saveSession (sessionsDir : String)
    (marshal : List Message → Except Unit String)
    (mkdirAll : String → Except Unit Unit)
    (writeFile : String → String → Except Unit Unit)
    (sessionID : String) (history : List Message) : Except StoreErr Unit :=
  match normalizeSessionID sessionID with
  | .error _ => .error .invalidSessionID
  | .ok normalizedSessionID =>
    if normalizedSessionID = "" then
      .ok ()
    else
      match marshal history with
      | .error _ => .error .ioErr
      | .ok payload =>
        match sessionFilePath sessionsDir normalizedSessionID with
        | .error _ => .error .invalidSessionID
        | .ok path =>
          match mkdirAll sessionsDir with
          | .error _ => .error .ioErr
          | .ok _ =>
            match writeFile path payload with
            | .error _ => .error .ioErr
            | .ok _ => .ok ()

/-! ## Bash command policy (write.go: `blockedCommandPatterns`,
`validateCommandPolicy`, `compilePolicyPatterns`, `splitPolicyList`)

Go's `regexp` engine is modelled abstractly: `matchPat p cmd` says whether
the pattern with source text `p` matches `cmd`, and `compileOk p` whether
`regexp.Compile(p)` succeeds.  The fixed blocklist is compiled with
`regexp.MustCompile` and therefore needs no compile check.  All theorems
hold for every matcher/compiler behaviour. -/

/-- The fixed destructive-command blocklist (write.go lines 90–97):
recursive root delete, shutdown, reboot, poweroff, filesystem format,
fork bomb. -/
def blockedCommandPatterns : List String :=
  ["(?i)\\brm\\s+-rf\\s+/",
   "(?i)\\bshutdown\\b",
   "(?i)\\breboot\\b",
   "(?i)\\bpoweroff\\b",
   "(?i)\\bmkfs(\\.|\\s)",
   ":\\s*\\(\\s*\\)\\s*\\\x7b\\s*:\\s*\\|\\s*:\\s*&\\s*\\\x7d\\s*;\\s*:"]

/-- Separator set of `splitPolicyList` (write.go lines 217–236). -/
def isPolicySep (c : Char) : Bool :=
  c = ',' || c = ';' || c = '\n'

/-- Go `strings.FieldsFunc`: maximal runs of non-separator characters
(never yields empty segments). -/
def splitFieldsAux (sep : Char → Bool) : List Char → List Char → List (List Char)
  | [], acc => if acc.isEmpty then [] else [acc.reverse]
  | c :: rest, acc =>
    if sep c then
      if acc.isEmpty then
        splitFieldsAux sep rest []
      else
        acc.reverse :: splitFieldsAux sep rest []
    else
      splitFieldsAux sep rest (c :: acc)

/-- `splitPolicyList` (write.go lines 217–236): split on comma, semicolon
or newline, trim each segment, and drop blanks. -/
def splitPolicyList (raw : String) : List String :=
  ((splitFieldsAux isPolicySep raw.data []).map fun seg =>
      trimSpace ⟨seg⟩).filter (· ≠ "")

/-- `compilePolicyPatterns` (write.go lines 199–215): blank input is an
empty list; otherwise every segment must compile, a malformed segment
being a hard error. -/
def compilePolicyPatterns (compileOk : String → Bool) (raw : String) :
    Except Unit (List String) :=
  let trimmed := trimSpace raw
  if trimmed = "" then
    .ok []
  else
    let parts := splitPolicyList trimmed
    if parts.all compileOk then .ok parts else .error ()

inductive CmdPolicyErr where
  | blockedFixed
  | invalidDenylist
  | blockedDenylist
  | invalidAllowlist
  | blockedAllowlist
deriving DecidableEq, Repr

/-- `validateCommandPolicy` (write.go lines 166–197): fixed blocklist
first, then the external denylist (compile, then any-match blocks), then
the external allowlist (compile; when non-empty, some pattern must
match). -/
def validateCommandPolicy (matchPat : String → String → Bool)
    (compileOk : String → Bool) (denyRaw allowRaw command : String) :
    Except CmdPolicyErr Unit :=
  if blockedCommandPatterns.any (fun p => matchPat p command) then
    .error .blockedFixed
  else
    match compilePolicyPatterns compileOk denyRaw with
    | .error _ => .error .invalidDenylist
    | .ok denyPats =>
      if denyPats.any (fun p => matchPat p command) then
        .error .blockedDenylist
      else
        match compilePolicyPatterns compileOk allowRaw with
        | .error _ => .error .invalidAllowlist
        | .ok allowPats =>
          if allowPats.isEmpty then
            .ok ()
          else if allowPats.any (fun p => matchPat p command) then
            .ok ()
          else
            .error .blockedAllowlist

/-! ## Outbound network policy (part_004: `EnsureOutboundURLAllowed`,
`isLocalHostname`, `isPrivateOrLocalIP`)

IP addresses are modelled as either four IPv4 bytes or eight IPv6 16-bit
groups (`Fin`-bounded, as in the wire format).  The `net.IP`
classification methods are translated from their documented semantics;
`net.DefaultResolver.LookupIPAddr` — a swappable package-level variable in
the source — is a function parameter, and the `SHIMIBOT_ALLOW_PRIVATE_EGRESS`
environment override is a boolean parameter. -/

inductive IP where
  | v4 (a b c d : Fin 256)
  | v6 (g0 g1 g2 g3 g4 g5 g6 g7 : Fin 65536)
deriving DecidableEq, Repr

/-- Go `IP.To4`: the IPv4 form of an IPv4 address or an IPv4-mapped IPv6
address (`::ffff:a.b.c.d`), else `nil`. -/
def IP.to4 : IP → Option (Nat × Nat × Nat × Nat)
  | .v4 a b c d => some (a.val, b.val, c.val, d.val)
  | .v6 g0 g1 g2 g3 g4 g5 g6 g7 =>
    if g0.val = 0 ∧ g1.val = 0 ∧ g2.val = 0 ∧ g3.val = 0 ∧ g4.val = 0 ∧
        g5.val = 65535 then
      some (g6.val / 256, g6.val % 256, g7.val / 256, g7.val % 256)
    else
      none

/-- Go `IP.IsLoopback`: `127.0.0.0/8`, or `::1`. -/
def IP.isLoopback (ip : IP) : Bool :=
  match ip.to4 with
  | some (a, _, _, _) => a = 127
  | none => ip = .v6 0 0 0 0 0 0 0 1

/-- The RFC 1918 IPv4 private ranges `10.0.0.0/8`, `172.16.0.0/12`,
`192.168.0.0/16` (the IPv4 half of Go `IP.IsPrivate`). -/
def IP.isRFC1918 (ip : IP) : Bool :=
  match ip.to4 with
  | some (a, b, _, _) =>
    a = 10 || (a = 172 && 16 ≤ b && b ≤ 31) || (a = 192 && b = 168)
  | none => false

/-- The RFC 4193 IPv6 unique-local range `fc00::/7` (the IPv6 half of Go
`IP.IsPrivate`): first byte `& 0xfe == 0xfc`, i.e. `0xfc` or `0xfd`.
(Disjoint from the IPv4-mapped range, whose first group is `0`.) -/
def IP.isUniqueLocal : IP → Bool
  | .v4 _ _ _ _ => false
  | .v6 g0 _ _ _ _ _ _ _ => g0.val / 256 = 252 || g0.val / 256 = 253

/-- Go `IP.IsPrivate`: RFC 1918 for IPv4(-mapped) addresses, RFC 4193
unique-local for other IPv6 addresses. -/
def IP.isPrivate (ip : IP) : Bool :=
  match ip.to4 with
  | some (a, b, _, _) =>
    a = 10 || (a = 172 && 16 ≤ b && b ≤ 31) || (a = 192 && b = 168)
  | none =>
    match ip with
    | .v4 _ _ _ _ => false
    | .v6 g0 _ _ _ _ _ _ _ => g0.val / 256 = 252 || g0.val / 256 = 253

/-- Go `IP.IsLinkLocalUnicast`: `169.254.0.0/16`, or `fe80::/10`. -/
def IP.isLinkLocalUnicast (ip : IP) : Bool :=
  match ip.to4 with
  | some (a, b, _, _) => a = 169 && b = 254
  | none =>
    match ip with
    | .v4 _ _ _ _ => false
    | .v6 g0 _ _ _ _ _ _ _ => g0.val / 256 = 254 && 128 ≤ g0.val % 256 && g0.val % 256 ≤ 191

/-- Go `IP.IsLinkLocalMulticast`: `224.0.0.0/24`, or `ff02::/16` (first
byte `0xff`, low nibble of the second byte `2`). -/
def IP.isLinkLocalMulticast (ip : IP) : Bool :=
  match ip.to4 with
  | some (a, b, c, _) => a = 224 && b = 0 && c = 0
  | none =>
    match ip with
    | .v4 _ _ _ _ => false
    | .v6 g0 _ _ _ _ _ _ _ => g0.val / 256 = 255 && g0.val % 16 = 2

/-- Go `IP.IsMulticast`: `224.0.0.0/4`, or `ff00::/8`. -/
def IP.isMulticast (ip : IP) : Bool :=
  match ip.to4 with
  | some (a, _, _, _) => 224 ≤ a && a ≤ 239
  | none =>
    match ip with
    | .v4 _ _ _ _ => false
    | .v6 g0 _ _ _ _ _ _ _ => g0.val / 256 = 255

/-- Go `IP.IsUnspecified`: `0.0.0.0` or `::`. -/
def IP.isUnspecified (ip : IP) : Bool :=
  match ip.to4 with
  | some (a, b, c, d) => a = 0 && b = 0 && c = 0 && d = 0
  | none => ip = .v6 0 0 0 0 0 0 0 0

/-- `isPrivateOrLocalIP` (part_004 lines 68–87): the standard-library
class checks, plus the explicit IPv4 link-local (`169.254.0.0/16`) and
carrier-grade-NAT (`100.64.0.0/10`) range checks on the 4-byte form.
(The `ip == nil` guard of the source is unrepresentable here: every
modelled address is a concrete 4- or 16-byte value.) -/
def isPrivateOrLocalIP (ip : IP) : Bool :=
  ip.isLoopback || ip.isPrivate || ip.isLinkLocalUnicast ||
    ip.isLinkLocalMulticast || ip.isMulticast || ip.isUnspecified ||
    (match ip.to4 with
     | some (a, b, _, _) => (a = 169 && b = 254) || (a = 100 && 64 ≤ b && b ≤ 127)
     | none => false)

/-- ASCII lower-casing, as `strings.ToLower` acts on the ASCII hostnames
and schemes this repository handles. -/
def lowerStr (s : String) : String :=
  ⟨s.data.map Char.toLower⟩

/-- The string test of `isLocalHostname` (part_004 lines 63–66) on an
already-extracted hostname string. -/
def isLocalHostnameStr (hostname : String) : Bool :=
  let normalized := lowerStr (trimSpace hostname)
  normalized = "localhost" || ".localhost".data.isSuffixOf normalized.data

/-- A parsed URL host, after `url.Parse`/`Hostname()`: either a literal IP
(`net.ParseIP` succeeds — such a string is never `localhost` nor blank)
or a hostname string. -/
inductive HostName where
  | name (s : String)
  | ipLiteral (ip : IP)
deriving DecidableEq, Repr

/-- A parsed outbound URL: the `Scheme` and `Hostname()` fields of
`url.Parse`'s result, the only parts `EnsureOutboundURLAllowed` reads. -/
structure OutboundURL where
  scheme : String
  host : HostName
deriving DecidableEq, Repr

inductive NetErr where
  | badScheme
  | emptyHost
  | blockedHost
  | blockedIP
  | resolveFailed
deriving DecidableEq, Repr

/-- `EnsureOutboundURLAllowed` (part_004 lines 16–61) on a parsed URL.
`allowPrivateEgress` models the `SHIMIBOT_ALLOW_PRIVATE_EGRESS=true`
override; `resolve` models the injected `resolveIPAddrs` variable. -/
def EnsureOutboundURLAllowed (allowPrivateEgress : Bool)
    (resolve : String → Except Unit (List IP)) (u : OutboundURL) :
    Except NetErr Unit :=
  if allowPrivateEgress then
    .ok ()
  else
    let scheme := lowerStr (trimSpace u.scheme)
    if scheme = "http" || scheme = "https" then
      match u.host with
      | .name rawHostname =>
        let hostname := trimSpace rawHostname
        if hostname = "" then
          .error .emptyHost
        else if isLocalHostnameStr hostname then
          .error .blockedHost
        else
          match resolve hostname with
          | .error _ => .error .resolveFailed
          | .ok [] => .error .resolveFailed
          | .ok (ipAddr :: ipAddrs) =>
            if (ipAddr :: ipAddrs).any isPrivateOrLocalIP then
              .error .blockedHost
            else
              .ok ()
      | .ipLiteral ip =>
        if isPrivateOrLocalIP ip then .error .blockedIP else .ok ()
    else
      .error .badScheme

/-- The claim's enumerated disallowed-class list, defined from the spec's
words (for comparison with the source's `isPrivateOrLocalIP`): loopback,
RFC 1918 private, link-local unicast/multicast, multicast, unspecified,
IPv4 link-local `169.254.0.0/16`, and carrier-grade NAT `100.64.0.0/10`. -/
def claimDisallowedClass (ip : IP) : Bool :=
  ip.isLoopback || ip.isRFC1918 || ip.isLinkLocalUnicast ||
    ip.isLinkLocalMulticast || ip.isMulticast || ip.isUnspecified ||
    (match ip.to4 with
     | some (a, b, _, _) => (a = 169 && b = 254) || (a = 100 && 64 ≤ b && b ≤ 127)
     | none => false)

/-! ## JSON values and Go `encoding/json` rendering

Needed for the response-envelope boundary (part_003).  A tool result
(`any` in Go) is an `Option Json`: `none` models the untyped Go `nil`
interface value — the one value the `data,omitempty` struct tag drops. -/

inductive Json where
  | null
  | bool (b : Bool)
  | num (n : Int)
  | str (s : String)
  | arr (elements : List Json)
  | obj (fields : List (String × Json))
deriving Repr

/-- Hex digit for `\u00XX` escapes. -/
def hexDigitChar (n : Nat) : Char :=
  if n < 10 then Char.ofNat (48 + n) else Char.ofNat (87 + n % 16)

/-- Go `encoding/json` string escaping (with the default HTML escaping of
`<`, `>`, `&`). -/
def escapeJsonChar (c : Char) : List Char :=
  if c = quoteChar then [backslashChar, quoteChar]
  else if c = backslashChar then [backslashChar, backslashChar]
  else if c = '\n' then [backslashChar, 'n']
  else if c = '\r' then [backslashChar, 'r']
  else if c = '\t' then [backslashChar, 't']
  else if c.toNat < 32 || c = '<' || c = '>' || c = '&' then
    [backslashChar, 'u', hexDigitChar (c.toNat / 4096 % 16),
     hexDigitChar (c.toNat / 256 % 16), hexDigitChar (c.toNat / 16 % 16),
     hexDigitChar (c.toNat % 16)]
  else
    [c]

/-- Rendered JSON string literal. -/
def renderString (s : String) : String :=
  ⟨[quoteChar] ++ s.data.flatMap escapeJsonChar ++ [quoteChar]⟩

mutual

/-- Go `json.Marshal` on our JSON values.  Object fields are rendered in
the order given (struct fields keep declaration order in Go; the one map
the envelope holds, `meta`, is key-sorted before it is embedded). -/
def renderJson : Json → String
  | .null => "null"
  | .bool b => if b then "true" else "false"
  | .num n => toString n
  | .str s => renderString s
  | .arr elements => "[" ++ renderElems elements ++ "]"
  | .obj fields => "\x7b" ++ renderFields fields ++ "\x7d"

def renderElems : List Json → String
  | [] => ""
  | [x] => renderJson x
  | x :: y :: xs => renderJson x ++ "," ++ renderElems (y :: xs)

def renderFields : List (String × Json) → String
  | [] => ""
  | [(k, v)] => renderString k ++ ":" ++ renderJson v
  | (k, v) :: y :: xs => renderString k ++ ":" ++ renderJson v ++ "," ++ renderFields (y :: xs)

end

/-! ## Response envelope (part_003: `ResponseEnvelope`, `SuccessEnvelope`,
`ErrorEnvelope`, `encodeEnvelope`) -/

structure ResponseError where
  message : String
deriving Repr

/-- `ResponseEnvelope` (part_003 lines 30–39).  `data`, `error` and `meta`
all carry `json:",omitempty"` tags; `meta` is an association list standing
for the Go `map[string]any`. -/
structure ResponseEnvelope where
  ok : Bool
  data : Option Json
  error : Option ResponseError
  meta : List (String × Json)
deriving Repr

/-- Lexicographic order on character lists; on the ASCII keys of the meta
map this agrees with Go's byte-wise key order for maps. -/
def charListLe : List Char → List Char → Bool
  | [], _ => true
  | _ :: _, [] => false
  | a :: as, b :: bs => if a = b then charListLe as bs else decide (a < b)

/-- Stable insertion for the key sort. -/
def insertByKey (x : String × Json) : List (String × Json) → List (String × Json)
  | [] => [x]
  | y :: ys =>
    if charListLe x.1.data y.1.data then x :: y :: ys else y :: insertByKey x ys

/-- Key-sort a `map[string]any` the way `json.Marshal` renders Go maps. -/
def sortFieldsByKey : List (String × Json) → List (String × Json)
  | [] => []
  | x :: xs => insertByKey x (sortFieldsByKey xs)

/-- The top-level JSON object `json.Marshal` produces for an envelope:
`ok` always; `data` unless the interface value is nil; `error` unless the
pointer is nil; `meta` unless the map is empty — in struct declaration
order. -/
def envelopeFields (envelope : ResponseEnvelope) : List (String × Json) :=
  [("ok", .bool envelope.ok)]
    ++ (match envelope.data with
        | some d => [("data", d)]
        | none => [])
    ++ (match envelope.error with
        | some e => [("error", .obj [("message", .str e.message)])]
        | none => [])
    ++ (match envelope.meta with
        | [] => []
        | _ => [("meta", .obj (sortFieldsByKey envelope.meta))])

/-- The keys of the rendered top-level envelope object. -/
def envelopeKeys (envelope : ResponseEnvelope) : List String :=
  (envelopeFields envelope).map Prod.fst

/-- `encodeEnvelope` (part_003 lines 157–163).  In the model `json.Marshal`
is total on `Json` values, so the encode-failure fallback branch of the
source is unreachable; `fallbackEnvelopeText` below reproduces its fixed
output. -/
def encodeEnvelope (envelope : ResponseEnvelope) : String :=
  renderJson (.obj (envelopeFields envelope))

/-- The fixed fallback emitted when `json.Marshal` of the envelope itself
errors (part_003 line 160). -/
def fallbackEnvelopeText : String :=
  "\x7b\"ok\":false,\"error\":\x7b\"message\":\"failed to encode tool response envelope\"\x7d\x7d"

/-- `SuccessEnvelope` (part_003 lines 149–151). -/
def SuccessEnvelope (data : Option Json) (meta : List (String × Json)) : String :=
  encodeEnvelope ⟨true, data, none, meta⟩

/-- `ErrorEnvelope` (part_003 lines 153–155). -/
def ErrorEnvelope (message : String) (meta : List (String × Json)) : String :=
  encodeEnvelope ⟨false, none, some ⟨message⟩, meta⟩

/-! ## Tool registry (registry.go: `Registry`, `NewRegistry`,
`Registry.Execute`)

A capability (`Tool` interface) is a name plus an execute function
returning either an error message or a result value (possibly the Go
`nil`, hence `Option Json`).  `NewRegistry` inserts into a map keyed by
name, so on duplicate names the last registration wins. -/

structure ToolImpl where
  name : String
  execute : String → Except String (Option Json)

/-- The `ctx.Context` field of `ToolContext`: absent (`nil` in Go), or a
context whose `Err()` is nil, `context.Canceled`, or
`context.DeadlineExceeded`. -/
inductive CtxState where
  | noContext
  | active
  | canceled
  | deadlineExceeded
deriving DecidableEq, Repr

/-- `ToolContext` (part_003 lines 21–28); the timeout in milliseconds as
`meta` reports it. -/
structure ToolContext where
  cwd : String
  allowedRoot : String
  timeoutMs : Int
  ctx : CtxState
  correlationID : String

/-- Map lookup in the registry built by `NewRegistry`: later registrations
overwrite earlier ones with the same name. -/
def registryLookup (toolList : List ToolImpl) (name : String) : Option ToolImpl :=
  toolList.reverse.find? fun tool => tool.name = name

/-- The eager `meta` map of `Registry.Execute` (registry.go lines 62–74):
tool name always; cwd, correlation id, allowed root when non-blank;
timeout when positive. -/
def buildMeta (tool : ToolImpl) (toolContext : ToolContext) : List (String × Json) :=
  [("tool", .str tool.name)]
    ++ (if trimSpace toolContext.cwd ≠ "" then [("cwd", .str toolContext.cwd)] else [])
    ++ (if trimSpace toolContext.correlationID ≠ "" then
          [("correlation_id", .str toolContext.correlationID)] else [])
    ++ (if trimSpace toolContext.allowedRoot ≠ "" then
          [("allowed_root", .str toolContext.allowedRoot)] else [])
    ++ (if toolContext.timeoutMs > 0 then [("timeout_ms", .num toolContext.timeoutMs)] else [])

/-- The post-validation tail of `Registry.Execute` (registry.go lines
89–99): argument normalization, capability invocation, and wrapping. -/
def registryDispatch (jsonValid : String → Bool) (tool : ToolImpl)
    (toolCall : ToolCall) (meta : List (String × Json)) : String :=
  match NormalizeJSONArguments jsonValid toolCall.arguments with
  | (_, false) => ErrorEnvelope (tool.name ++ ": invalid JSON arguments") meta
  | (normalizedArguments, true) =>
    match tool.execute normalizedArguments with
    | .error message => ErrorEnvelope (tool.name ++ ": " ++ message) meta
    | .ok result => SuccessEnvelope result meta

/-- `Registry.Execute` (registry.go lines 56–100).  The returned pair is
Go's `(envelopeText, matched)`. -/
def registryExecute (jsonValid : String → Bool) (toolList : List ToolImpl)
    (toolCall : ToolCall) (toolContext : ToolContext) : String × Bool :=
  match registryLookup toolList toolCall.name with
  | none => ("", false)
  | some tool =>
    let meta := buildMeta tool toolContext
    if trimSpace toolContext.cwd = "" || trimSpace toolContext.allowedRoot = "" then
      (ErrorEnvelope "invalid tool context: cwd and allowed_root are required" meta, true)
    else
      match toolContext.ctx with
      | .canceled => (ErrorEnvelope "tool execution cancelled" meta, true)
      | .deadlineExceeded =>
        (ErrorEnvelope "tool execution context error: context deadline exceeded" meta, true)
      | .noContext => (registryDispatch jsonValid tool toolCall meta, true)
      | .active => (registryDispatch jsonValid tool toolCall meta, true)

/-! ## Turn runner (internal/agent/runner.go: `Policy`, `Runner.RunPrompt`)

The completion provider is modelled by the finite list of responses the
run consumes, one entry per `Complete` call (an exhausted list stands for
a provider failure).  The tool-dispatch callback `executeTool` is a
function parameter returning the envelope text.  The prompt-scoped
cancellation signal is a constant boolean: the source polls `ctx.Err()`
at the loop head and before each dispatch, and within one modelled run
the signal does not change.  The `executed` field instruments the run
with the tool calls actually dispatched, in order. -/

structure Policy where
  maxTurns : Nat
  maxToolCalls : Nat
deriving DecidableEq, Repr

structure Choice where
  finishReason : String
  message : Message
deriving DecidableEq, Repr

structure CompletionResponse where
  choices : List Choice
deriving DecidableEq, Repr

inductive RunError where
  | cancelled
  | maxTurnsExceeded
  | clientError
  | noChoices
  | toolCallBudgetExceeded
deriving DecidableEq, Repr

structure RunResult where
  history : List Message
  executed : List ToolCall
  text : String
  err : Option RunError
deriving DecidableEq, Repr

/-- Argument sanitation for one tool call (runner.go lines 92–104):
normalize the arguments, falling back to `"\x7b\x7d"` when unrecoverable. -/
def normalizeToolCall (jsonValid : String → Bool) (toolCall : ToolCall) : ToolCall :=
  let (normalizedArguments, valid) := NormalizeJSONArguments jsonValid toolCall.arguments
  if valid then
    { toolCall with arguments := normalizedArguments }
  else
    { toolCall with arguments := "\x7b\x7d" }

/-- Pruning of a turn's tool calls (runner.go lines 92–114): sanitize each
call's arguments, then drop calls missing an id or a name.  (The source's
content backfill inside this loop is a no-op: the assistant content was
initialized to the raw message content and never blanked.) -/
def pruneToolCalls (jsonValid : String → Bool) (toolCalls : List ToolCall) :
    List ToolCall :=
  (toolCalls.map (normalizeToolCall jsonValid)).filter fun toolCall =>
    trimSpace toolCall.id ≠ "" && trimSpace toolCall.name ≠ ""

/-- The `for` loop of `RunPrompt` (runner.go lines 57–171).  One recursive
step per turn; the completion consumed by turn `n` is the head of
`responses`.  `lastText` tracks `lastAssistantText` (the assistant content
equals the raw message content, so the source's two-branch update
collapses to one test). -/
def runLoop (policy : Policy) (cancelled : Bool) (jsonValid : String → Bool)
    (executeTool : ToolCall → String) :
    List (Except Unit CompletionResponse) → List Message → Nat → Nat →
    String → List ToolCall → RunResult
  | responses, history, turnNumber, toolCallsUsed, lastText, executed =>
    if cancelled then
      ⟨history, executed, lastText, some .cancelled⟩
    else if policy.maxTurns > 0 ∧ turnNumber > policy.maxTurns then
      ⟨history, executed, lastText, some .maxTurnsExceeded⟩
    else
      match responses with
      | [] => ⟨history, executed, "", some .clientError⟩
      | .error _ :: _ => ⟨history, executed, "", some .clientError⟩
      | .ok resp :: rest =>
        match resp.choices with
        | [] => ⟨history, executed, "", some .noChoices⟩
        | choice :: _ =>
          let message := choice.message
          let prunedCalls := pruneToolCalls jsonValid message.toolCalls
          let assistantMessage := mkAssistantMessage message.content prunedCalls
          let history1 := history ++ [assistantMessage]
          let lastText1 :=
            if trimSpace message.content ≠ "" then message.content else lastText
          let toolCallCount := prunedCalls.length
          if choice.finishReason = "stop" ∨ toolCallCount = 0 then
            ⟨history1, executed, lastText1, none⟩
          else if policy.maxToolCalls > 0 ∧
              toolCallsUsed + toolCallCount > policy.maxToolCalls then
            ⟨history1, executed, lastText1, some .toolCallBudgetExceeded⟩
          else
            let history2 := history1 ++ prunedCalls.map fun toolCall =>
              mkToolMessage (executeTool toolCall) toolCall.id
            runLoop policy cancelled jsonValid executeTool rest history2
              (turnNumber + 1) (toolCallsUsed + toolCallCount) lastText1
              (executed ++ prunedCalls)

/-- `Runner.RunPrompt` (runner.go lines 40–175): append the user message,
then drive the turn loop from turn 1 with zero tool calls used. -/
def RunPrompt (policy : Policy) (cancelled : Bool) (jsonValid : String → Bool)
    (executeTool : ToolCall → String)
    (responses : List (Except Unit CompletionResponse))
    (history : List Message) (prompt : String) : RunResult :=
  runLoop policy cancelled jsonValid executeTool responses
    (history ++ [mkUserMessage prompt]) 1 0 "" []

/-! ## Path confinement (part_003: `EnsurePathAllowed`, `resolveRealPath`,
`findExistingParent`)

An absolute, lexically clean path is its list of components (`[]` is `/`;
no `.`/`..`/empty components — `filepath.Abs` cleans its result, and the
functions below receive only `filepath.Abs` outputs).  The filesystem is
abstract: `eval` models `filepath.EvalSymlinks` (full resolution, or an
error) and `lstat` models `os.Lstat` (does the path exist, following
intermediate but not final symlinks).  `filepath.Rel` on two clean
absolute paths is `goRel` below: strip the common prefix, one `..` per
remaining base component, then the target remainder. -/

inductive FSErr where
  | notExist
  | other
deriving DecidableEq, Repr

structure FS where
  eval : List String → Except FSErr (List String)
  lstat : List String → Except FSErr Unit

/-- `findExistingParent` (part_003 lines 118–133), walking from the last
component upward, phrased on the reversed component list so that dropping
the last component (`filepath.Dir`) is structural.  At the root
(`Dir(p) == p`) the source fails with a non-`ErrNotExist` error
("no existing parent found"), as does a non-`ErrNotExist` `Lstat` error. -/
def findExistingParentRev (fs : FS) : List String → Except FSErr (List String)
  | [] =>
    match fs.lstat [] with
    | .ok _ => .ok []
    | .error _ => .error .other
  | c :: rev =>
    match fs.lstat (c :: rev).reverse with
    | .ok _ => .ok (c :: rev).reverse
    | .error .notExist => findExistingParentRev fs rev
    | .error .other => .error .other

/-- `findExistingParent` on a clean absolute path. -/
def findExistingParent (fs : FS) (path : List String) : Except FSErr (List String) :=
  findExistingParentRev fs path.reverse

/-- `resolveRealPath` (part_003 lines 93–116): full symlink resolution
when the path exists; otherwise resolve the deepest existing ancestor and
rejoin the non-existent remainder.  (`filepath.Rel(existingParent,
absPath)` is exactly the dropped suffix since the parent is an ancestor of
the path, and the final `Clean(Join(..))` is plain concatenation of clean
components.) -/
def resolveRealPath (fs : FS) (absPath : List String) : Except FSErr (List String) :=
  match fs.eval absPath with
  | .ok realPath => .ok realPath
  | .error .other => .error .other
  | .error .notExist =>
    match findExistingParent fs absPath with
    | .error e => .error e
    | .ok existingParent =>
      match fs.eval existingParent with
      | .error e => .error e
      | .ok realParent => .ok (realParent ++ absPath.drop existingParent.length)

/-- Length of the longest common prefix of two component lists. -/
def commonPrefixLen : List String → List String → Nat
  | a :: as, b :: bs => if a = b then commonPrefixLen as bs + 1 else 0
  | _, _ => 0

/-- `filepath.Rel(base, targ)` for clean absolute component lists: one
`..` per base component beyond the common prefix, then the target
remainder (`[]` renders as Go's `"."`). -/
def goRel (base targ : List String) : List String :=
  List.replicate (base.length - commonPrefixLen base targ) ".." ++
    targ.drop (commonPrefixLen base targ)

/-- The rejection test of `EnsurePathAllowed` (part_003 line 86):
`relPath == ".."` or `relPath` starts with `"../"` — on component lists,
the first component is `".."`. -/
def relEscapes (rel : List String) : Bool :=
  rel.head? = some ".."

inductive PathErr where
  | rootResolve
  | pathResolve
  | outsideRoot
deriving DecidableEq, Repr

/-- `EnsurePathAllowed` (part_003 lines 57–91) on absolute component
lists.  (The string-level guards — blank `allowed_root`, `filepath.Abs` —
happen before the inputs reach this model; `filepath.Abs` errors only when
the working directory is unavailable.) -/
def EnsurePathAllowed (fs : FS) (allowedRoot candidatePath : List String) :
    Except PathErr Unit :=
  match fs.eval allowedRoot with
  | .error _ => .error .rootResolve
  | .ok realRoot =>
    match resolveRealPath fs candidatePath with
    | .error _ => .error .pathResolve
    | .ok realPath =>
      if relEscapes (goRel realRoot realPath) then
        .error .outsideRoot
      else
        .ok ()

/-! ### A concrete filesystem for the symlink scenarios

Mirrors the layouts of the repository's own tests
(`TestEnsurePathAllowed_BlocksExistingSymlinkEscape`,
`…_BlocksNonExistingSymlinkEscape`, `…_AllowsInRootSymlink`): an allowed
root `/root` containing a symlink `link-out → /outside` (with
`/outside/secret.txt` existing and `/outside/new-file.txt` not), a real
directory `/root/nested` with `ok.txt`, and a symlink
`link-in → /root/nested`. -/

/-- `filepath.EvalSymlinks` on the demo filesystem. -/
def demoEval : List String → Except FSErr (List String)
  | [] => .ok []
  | ["root"] => .ok ["root"]
  | ["outside"] => .ok ["outside"]
  | ["outside", "secret.txt"] => .ok ["outside", "secret.txt"]
  | ["root", "nested"] => .ok ["root", "nested"]
  | ["root", "nested", "ok.txt"] => .ok ["root", "nested", "ok.txt"]
  | ["root", "link-out"] => .ok ["outside"]
  | ["root", "link-out", "secret.txt"] => .ok ["outside", "secret.txt"]
  | ["root", "link-in"] => .ok ["root", "nested"]
  | ["root", "link-in", "ok.txt"] => .ok ["root", "nested", "ok.txt"]
  | _ => .error .notExist

/-- `os.Lstat` existence on the demo filesystem (a symlink itself exists;
a path through `link-out` exists only if its target under `/outside`
does). -/
def demoLstat : List String → Except FSErr Unit
  | [] => .ok ()
  | ["root"] => .ok ()
  | ["outside"] => .ok ()
  | ["outside", "secret.txt"] => .ok ()
  | ["root", "nested"] => .ok ()
  | ["root", "nested", "ok.txt"] => .ok ()
  | ["root", "link-out"] => .ok ()
  | ["root", "link-out", "secret.txt"] => .ok ()
  | ["root", "link-in"] => .ok ()
  | ["root", "link-in", "ok.txt"] => .ok ()
  | _ => .error .notExist

def demoFS : FS :=
  ⟨demoEval, demoLstat⟩

/-- The amended claim's success condition for the outbound policy, defined
from the claim's words (for comparison with `EnsureOutboundURLAllowed`):
scheme http/https, hostname non-empty and not `localhost`-like; a literal
IP must avoid the enumerated classes and IPv6 unique-local; a hostname
must resolve to a non-empty address set every member of which avoids
them. -/
def outboundAllowedAmended (resolve : String → Except Unit (List IP))
    (u : OutboundURL) : Prop :=
  (lowerStr (trimSpace u.scheme) = "http" ∨
    lowerStr (trimSpace u.scheme) = "https") ∧
  match u.host with
  | .name rawHostname =>
    trimSpace rawHostname ≠ "" ∧
    isLocalHostnameStr (trimSpace rawHostname) = false ∧
    ∃ addrs, resolve (trimSpace rawHostname) = .ok addrs ∧ addrs ≠ [] ∧
      ∀ ip ∈ addrs, claimDisallowedClass ip = false ∧ ip.isUniqueLocal = false
  | .ipLiteral ip =>
    claimDisallowedClass ip = false ∧ ip.isUniqueLocal = false

/-!
# Theorems

Supporting lemmas first, then one theorem per claim (with its witness or
counterexample alongside).
-/

/-! ### Path confinement lemmas -/

lemma commonPrefixLen_le_left (a : List String) :
    ∀ b, commonPrefixLen a b ≤ a.length := by
  induction a with
  | nil => intro b; cases b <;> simp [commonPrefixLen]
  | cons x xs ih =>
    intro b
    cases b with
    | nil => simp [commonPrefixLen]
    | cons y ys =>
      simp only [commonPrefixLen, List.length_cons]
      split
      · exact Nat.succ_le_succ (ih ys)
      · omega

lemma prefix_iff_commonPrefixLen (a : List String) :
    ∀ b, a <+: b ↔ commonPrefixLen a b = a.length := by
  induction a with
  | nil => intro b; cases b <;> simp [commonPrefixLen]
  | cons x xs ih =>
    intro b
    cases b with
    | nil =>
      simp [commonPrefixLen]
    | cons y ys =>
      rw [List.cons_prefix_cons]
      simp only [commonPrefixLen, List.length_cons]
      constructor
      · rintro ⟨rfl, hpre⟩
        simp [(ih ys).mp hpre]
      · intro h
        by_cases hxy : x = y
        · subst hxy
          simp only [if_pos rfl] at h
          exact ⟨rfl, (ih ys).mpr (Nat.succ_injective h)⟩
        · simp only [if_neg hxy] at h
          omega

lemma relEscapes_goRel (base targ : List String) (hclean : ".." ∉ targ) :
    relEscapes (goRel base targ) = true ↔ ¬ base <+: targ := by
  simp only [relEscapes, goRel, decide_eq_true_eq]
  rcases Nat.lt_or_ge (commonPrefixLen base targ) base.length with hlt | hge
  · obtain ⟨k, hk⟩ : ∃ k, base.length - commonPrefixLen base targ = k + 1 :=
      ⟨base.length - commonPrefixLen base targ - 1, by omega⟩
    rw [hk, List.replicate_succ]
    simp only [List.cons_append, List.head?_cons, Option.some.injEq]
    constructor
    · intro _ hpre
      rw [prefix_iff_commonPrefixLen] at hpre
      omega
    · intro _
      trivial
  · have heq : commonPrefixLen base targ = base.length :=
      Nat.le_antisymm (commonPrefixLen_le_left base targ) hge
    have hpre : base <+: targ := (prefix_iff_commonPrefixLen base targ).mpr heq
    have hzero : base.length - commonPrefixLen base targ = 0 := by omega
    rw [hzero, List.replicate_zero, List.nil_append]
    constructor
    · intro hhead
      exfalso
      have : ".." ∈ targ.drop (commonPrefixLen base targ) :=
        List.mem_of_mem_head? hhead
      exact hclean (List.mem_of_mem_drop this)
    · intro h
      exact absurd hpre h

/-- C1: `EnsurePathAllowed` accepts exactly when the real candidate path —
full symlink resolution when the path exists, deepest-existing-ancestor
resolution plus the rejoined remainder otherwise (`resolveRealPath`) —
lies inside or equals the real allowed root, i.e. the real root's
components are a prefix of the real candidate's; equivalently it rejects
with the outside-root error precisely when the relative path from real
root to real candidate is `..` or starts with `../`.  In particular, on
the demo filesystem, an in-root symlink whose target lies outside the
root is rejected for both an existing and a not-yet-existing final
component, and an in-root symlink pointing at another in-root location is
accepted. -/
theorem EnsurePathAllowed_spec :
    (∀ (fs : FS) (allowedRoot candidatePath realRoot realPath : List String),
        fs.eval allowedRoot = .ok realRoot →
        resolveRealPath fs candidatePath = .ok realPath →
        ".." ∉ realPath →
        (EnsurePathAllowed fs allowedRoot candidatePath = .ok () ↔
          realRoot <+: realPath) ∧
        (EnsurePathAllowed fs allowedRoot candidatePath = .error .outsideRoot ↔
          ¬ realRoot <+: realPath)) ∧
    EnsurePathAllowed demoFS ["root"] ["root", "link-out", "secret.txt"] =
      .error .outsideRoot ∧
    EnsurePathAllowed demoFS ["root"] ["root", "link-out", "new-file.txt"] =
      .error .outsideRoot ∧
    EnsurePathAllowed demoFS ["root"] ["root", "link-in", "ok.txt"] = .ok () := by
  refine ⟨?_, rfl, rfl, rfl⟩
  intro fs allowedRoot candidatePath realRoot realPath hroot hpath hclean
  have hmain : EnsurePathAllowed fs allowedRoot candidatePath =
      if relEscapes (goRel realRoot realPath) then .error .outsideRoot
      else .ok () := by
    unfold EnsurePathAllowed
    rw [hroot, hpath]
  by_cases hesc : relEscapes (goRel realRoot realPath) = true
  · rw [relEscapes_goRel realRoot realPath hclean] at hesc
    rw [hmain]
    simp_all [relEscapes_goRel realRoot realPath hclean]
  · have hpre : realRoot <+: realPath := by
      by_contra hnp
      exact hesc ((relEscapes_goRel realRoot realPath hclean).mpr hnp)
    rw [hmain]
    simp_all

/-- Witness for `EnsurePathAllowed_spec` at the in-root-symlink input. -/
theorem EnsurePathAllowed_spec_witness :
    (demoFS.eval ["root"] = .ok ["root"] ∧
     resolveRealPath demoFS ["root", "link-in", "ok.txt"] =
       .ok ["root", "nested", "ok.txt"] ∧
     ".." ∉ (["root", "nested", "ok.txt"] : List String)) ∧
    ((EnsurePathAllowed demoFS ["root"] ["root", "link-in", "ok.txt"] = .ok () ↔
       ["root"] <+: ["root", "nested", "ok.txt"]) ∧
     (EnsurePathAllowed demoFS ["root"] ["root", "link-in", "ok.txt"] =
        .error .outsideRoot ↔ ¬ ["root"] <+: ["root", "nested", "ok.txt"])) :=
  ⟨⟨rfl, rfl, by decide⟩,
   EnsurePathAllowed_spec.1 demoFS ["root"] ["root", "link-in", "ok.txt"]
     ["root"] ["root", "nested", "ok.txt"] rfl rfl (by decide)⟩

/-! ### Outbound network policy -/

lemma isPrivate_eq_rfc1918_or_uniqueLocal (ip : IP) :
    ip.isPrivate = (ip.isRFC1918 || ip.isUniqueLocal) := by
  cases ip with
  | v4 a b c d =>
    simp [IP.isPrivate, IP.isRFC1918, IP.isUniqueLocal, IP.to4]
  | v6 g0 g1 g2 g3 g4 g5 g6 g7 =>
    by_cases hmap : g0.val = 0 ∧ g1.val = 0 ∧ g2.val = 0 ∧ g3.val = 0 ∧
        g4.val = 0 ∧ g5.val = 65535
    · have h0 := hmap.1
      simp [IP.isPrivate, IP.isRFC1918, IP.isUniqueLocal, IP.to4, hmap, h0]
    · simp [IP.isPrivate, IP.isRFC1918, IP.isUniqueLocal, IP.to4, hmap]

lemma isPrivateOrLocalIP_eq (ip : IP) :
    isPrivateOrLocalIP ip = (claimDisallowedClass ip || ip.isUniqueLocal) := by
  rw [Bool.eq_iff_iff]
  simp only [isPrivateOrLocalIP, claimDisallowedClass,
    isPrivate_eq_rfc1918_or_uniqueLocal, Bool.or_eq_true]
  tauto

/-- C2 counterexample: the claim's enumerated disallowed classes do not
cover everything the code blocks.  (a) The IPv6 unique-local literal
`fd00::1` is blocked by `EnsureOutboundURLAllowed` (via `IP.IsPrivate`'s
RFC 4193 half) although it is in none of the enumerated classes.  (b) A
URL with an empty hostname (e.g. `http://`) is rejected outright — even
under a resolver that would return a public address — although the claim
lists no empty-hostname failure. -/
theorem EnsureOutboundURLAllowed_claim_counterexample :
    (EnsureOutboundURLAllowed false (fun _ => .error ())
        ⟨"http", .ipLiteral (.v6 64768 0 0 0 0 0 0 1)⟩ = .error .blockedIP ∧
      claimDisallowedClass (.v6 64768 0 0 0 0 0 0 1) = false) ∧
    (EnsureOutboundURLAllowed false (fun _ => .ok [.v4 93 184 216 34])
        ⟨"http", .name ""⟩ = .error .emptyHost ∧
      isLocalHostnameStr "" = false ∧
      claimDisallowedClass (.v4 93 184 216 34) = false) :=
  ⟨⟨rfl, by decide⟩, ⟨rfl, by decide, by decide⟩⟩

/-- C2 (amended): with the private-egress override set,
`EnsureOutboundURLAllowed` always succeeds; with it unset, it succeeds
exactly when the scheme is http/https, the hostname is non-empty and not
`localhost`-like, and the literal IP — or every member of the non-empty
resolved address set — avoids the claim's enumerated classes *and* the
IPv6 unique-local range `fc00::/7` (the RFC 4193 half of Go's
`IsPrivate`, which the original claim omitted); in every other case —
bad scheme, empty or local hostname, failed or empty resolution, or any
disallowed address — it fails. -/
theorem EnsureOutboundURLAllowed_amended :
    (∀ resolve u, EnsureOutboundURLAllowed true resolve u = .ok ()) ∧
    (∀ resolve u,
       EnsureOutboundURLAllowed false resolve u = .ok () ↔
         outboundAllowedAmended resolve u) := by
  constructor
  · intro resolve u
    rfl
  · intro resolve u
    obtain ⟨scheme, host⟩ := u
    simp only [EnsureOutboundURLAllowed, outboundAllowedAmended, if_false,
      Bool.false_eq_true]
    by_cases hscheme : lowerStr (trimSpace scheme) = "http" ∨
        lowerStr (trimSpace scheme) = "https"
    · have hsb : (lowerStr (trimSpace scheme) = "http" ||
          lowerStr (trimSpace scheme) = "https") = true := by
        simp [hscheme]
      rw [hsb]
      simp only [if_true, hscheme, true_and]
      cases host with
      | ipLiteral ip =>
        simp only [isPrivateOrLocalIP_eq]
        by_cases hip : claimDisallowedClass ip = false ∧ ip.isUniqueLocal = false
        · simp [hip.1, hip.2]
        · rcases Bool.eq_false_or_eq_true (claimDisallowedClass ip) with h | h <;>
            rcases Bool.eq_false_or_eq_true ip.isUniqueLocal with h2 | h2 <;>
            simp_all
      | name rawHostname =>
        by_cases hempty : trimSpace rawHostname = ""
        · simp [hempty]
        · simp only [hempty, if_neg, ne_eq, not_false_eq_true, true_and]
          by_cases hlocal : isLocalHostnameStr (trimSpace rawHostname) = true
          · simp [hlocal]
          · have hlf : isLocalHostnameStr (trimSpace rawHostname) = false := by
              simp_all
            simp only [hlf, if_neg, Bool.false_eq_true, not_false_eq_true,
              true_and]
            cases hres : resolve (trimSpace rawHostname) with
            | error e =>
              simp
            | ok addrs =>
              cases addrs with
              | nil => simp
              | cons ipAddr rest =>
                by_cases hany : (ipAddr :: rest).any isPrivateOrLocalIP = true
                · simp only [hany, if_true]
                  constructor
                  · intro h
                    exact absurd h (by simp)
                  · rintro ⟨as, has, -, hall⟩
                    injection has with has
                    subst has
                    simp only [List.any_eq_true] at hany
                    obtain ⟨ip, hmem, hip⟩ := hany
                    rw [isPrivateOrLocalIP_eq] at hip
                    rcases hall ip hmem with ⟨h1, h2⟩
                    rw [h1, h2] at hip
                    simp at hip
                · simp only [Bool.not_eq_true] at hany
                  simp only [hany, Bool.false_eq_true, if_neg,
                    not_false_eq_true]
                  constructor
                  · intro _
                    refine ⟨ipAddr :: rest, rfl, by simp, ?_⟩
                    intro ip hmem
                    have : isPrivateOrLocalIP ip = false := by
                      rw [List.any_eq_false] at hany
                      simpa using hany ip hmem
                    rw [isPrivateOrLocalIP_eq] at this
                    exact ⟨by simpa using Bool.or_eq_false_iff.mp this |>.1,
                      by simpa using Bool.or_eq_false_iff.mp this |>.2⟩
                  · intro _
                    trivial
    · have hsb : (lowerStr (trimSpace scheme) = "http" ||
          lowerStr (trimSpace scheme) = "https") = false := by
        push_neg at hscheme
        simp [hscheme.1, hscheme.2]
      rw [hsb]
      simp [hscheme]

/-! ### Argument normalizer -/

/-- C3: `NormalizeJSONArguments` maps blank input to `("\x7b\x7d", true)`;
input whose trimmed form the validity predicate accepts to that trimmed
text unchanged; otherwise, the first balanced brace span (extracted with
string-literal and escape awareness by `extractBalancedJSON`) when it is
valid; otherwise the same for the first balanced bracket span; and every
remaining input to `("", false)`.  Parametric in the `json.Valid`
predicate. -/
theorem NormalizeJSONArguments_spec :
    ∀ (jsonValid : String → Bool) (raw : String),
      (trimSpace raw = "" →
        NormalizeJSONArguments jsonValid raw = ("\x7b\x7d", true)) ∧
      (trimSpace raw ≠ "" → jsonValid (trimSpace raw) = true →
        NormalizeJSONArguments jsonValid raw = (trimSpace raw, true)) ∧
      (∀ extracted, trimSpace raw ≠ "" → jsonValid (trimSpace raw) = false →
        extractBalancedJSON (trimSpace raw) openBraceChar closeBraceChar =
          some extracted →
        jsonValid extracted = true →
        NormalizeJSONArguments jsonValid raw = (extracted, true)) ∧
      (∀ extracted, trimSpace raw ≠ "" → jsonValid (trimSpace raw) = false →
        (∀ braceSpan,
          extractBalancedJSON (trimSpace raw) openBraceChar closeBraceChar =
            some braceSpan → jsonValid braceSpan = false) →
        extractBalancedJSON (trimSpace raw) openBracketChar closeBracketChar =
          some extracted →
        jsonValid extracted = true →
        NormalizeJSONArguments jsonValid raw = (extracted, true)) ∧
      (trimSpace raw ≠ "" → jsonValid (trimSpace raw) = false →
        (∀ braceSpan,
          extractBalancedJSON (trimSpace raw) openBraceChar closeBraceChar =
            some braceSpan → jsonValid braceSpan = false) →
        (∀ bracketSpan,
          extractBalancedJSON (trimSpace raw) openBracketChar closeBracketChar =
            some bracketSpan → jsonValid bracketSpan = false) →
        NormalizeJSONArguments jsonValid raw = ("", false)) := by
  intro jsonValid raw
  refine ⟨?_, ?_, ?_, ?_, ?_⟩
  · intro hblank
    simp [NormalizeJSONArguments, hblank]
  · intro hblank hvalid
    simp [NormalizeJSONArguments, hblank, hvalid]
  · intro extracted hblank hinvalid hext hvalid
    simp [NormalizeJSONArguments, hblank, hinvalid, hext, hvalid]
  · intro extracted hblank hinvalid hbrace hext hvalid
    simp only [NormalizeJSONArguments, hblank, if_neg, hinvalid,
      Bool.false_eq_true, if_false]
    cases hb : extractBalancedJSON (trimSpace raw) openBraceChar closeBraceChar with
    | none => simp [hb, hext, hvalid]
    | some braceSpan => simp [hb, hbrace braceSpan hb, hext, hvalid]
  · intro hblank hinvalid hbrace hbracket
    simp only [NormalizeJSONArguments, hblank, if_neg, hinvalid,
      Bool.false_eq_true, if_false]
    cases hb : extractBalancedJSON (trimSpace raw) openBraceChar closeBraceChar with
    | none =>
      cases hk : extractBalancedJSON (trimSpace raw) openBracketChar
          closeBracketChar with
      | none => simp [hb, hk]
      | some bracketSpan => simp [hb, hk, hbracket bracketSpan hk]
    | some braceSpan =>
      cases hk : extractBalancedJSON (trimSpace raw) openBracketChar
          closeBracketChar with
      | none => simp [hb, hbrace braceSpan hb, hk]
      | some bracketSpan =>
        simp [hb, hbrace braceSpan hb, hk, hbracket bracketSpan hk]

/-- Witness for `NormalizeJSONArguments_spec`: a prose-wrapped object is
replaced by its balanced brace span. -/
theorem NormalizeJSONArguments_spec_witness :
    (trimSpace "noise \x7b\"a\":1\x7d end" ≠ "" ∧
     (fun s => decide (s = "\x7b\"a\":1\x7d")) (trimSpace "noise \x7b\"a\":1\x7d end") = false ∧
     extractBalancedJSON (trimSpace "noise \x7b\"a\":1\x7d end") openBraceChar
       closeBraceChar = some "\x7b\"a\":1\x7d" ∧
     (fun s => decide (s = "\x7b\"a\":1\x7d")) "\x7b\"a\":1\x7d" = true) ∧
    NormalizeJSONArguments (fun s => decide (s = "\x7b\"a\":1\x7d"))
      "noise \x7b\"a\":1\x7d end" = ("\x7b\"a\":1\x7d", true) :=
  ⟨⟨by decide, by decide, rfl, by decide⟩,
   (NormalizeJSONArguments_spec (fun s => decide (s = "\x7b\"a\":1\x7d"))
       "noise \x7b\"a\":1\x7d end").2.2.1 "\x7b\"a\":1\x7d"
     (by decide) (by decide) rfl (by decide)⟩

/-! ### Turn runner -/

/-- C4: whenever a turn's completion carries pruned tool calls whose count
`c` satisfies `maxToolCalls > 0` and `used + c > maxToolCalls` (and the
turn is otherwise live: not cancelled, within the turn budget, finish
reason not `"stop"`, at least one pruned call), the loop returns the
tool-budget error with that turn's assistant message appended to history
and the executed-call list unchanged — zero tool executions for the
turn. -/
theorem runLoop_toolBudget_spec :
    ∀ (policy : Policy) (jsonValid : String → Bool)
      (executeTool : ToolCall → String)
      (rest : List (Except Unit CompletionResponse)) (choice : Choice)
      (choices : List Choice) (history : List Message)
      (turnNumber toolCallsUsed : Nat) (lastText : String)
      (executed : List ToolCall),
      (policy.maxTurns = 0 ∨ turnNumber ≤ policy.maxTurns) →
      choice.finishReason ≠ "stop" →
      pruneToolCalls jsonValid choice.message.toolCalls ≠ [] →
      policy.maxToolCalls > 0 →
      toolCallsUsed +
          (pruneToolCalls jsonValid choice.message.toolCalls).length >
        policy.maxToolCalls →
      runLoop policy false jsonValid executeTool
          (.ok ⟨choice :: choices⟩ :: rest) history turnNumber toolCallsUsed
          lastText executed =
        ⟨history ++ [mkAssistantMessage choice.message.content
            (pruneToolCalls jsonValid choice.message.toolCalls)],
         executed,
         if trimSpace choice.message.content ≠ "" then choice.message.content
         else lastText,
         some .toolCallBudgetExceeded⟩ := by
  intro policy jsonValid executeTool rest choice choices history turnNumber
    toolCallsUsed lastText executed hturn hstop hcalls hbudget hover
  have hturnCond : ¬ (policy.maxTurns > 0 ∧ turnNumber > policy.maxTurns) := by
    rcases hturn with h | h <;> omega
  have hcount : (pruneToolCalls jsonValid choice.message.toolCalls).length ≠ 0 := by
    simpa using hcalls
  simp only [runLoop, Bool.false_eq_true, if_false, hturnCond, if_neg,
    not_false_eq_true]
  rw [if_neg (by simp [hstop, hcount])]
  rw [if_pos ⟨hbudget, hover⟩]

/-- Witness for `runLoop_toolBudget_spec`: `maxToolCalls = 1` with two
calls requested in one turn yields the budget error and zero
executions. -/
theorem runLoop_toolBudget_spec_witness :
    ((⟨0, 1⟩ : Policy).maxTurns = 0 ∨ 1 ≤ (⟨0, 1⟩ : Policy).maxTurns) ∧
    ("tool_calls" : String) ≠ "stop" ∧
    pruneToolCalls (fun _ => true)
        [⟨"a", "T", "\x7b\x7d"⟩, ⟨"b", "T", "\x7b\x7d"⟩] ≠ [] ∧
    (⟨0, 1⟩ : Policy).maxToolCalls > 0 ∧
    0 + (pruneToolCalls (fun _ => true)
        [⟨"a", "T", "\x7b\x7d"⟩, ⟨"b", "T", "\x7b\x7d"⟩]).length >
      (⟨0, 1⟩ : Policy).maxToolCalls ∧
    runLoop ⟨0, 1⟩ false (fun _ => true) (fun _ => "env")
        [.ok ⟨[⟨"tool_calls", ⟨.assistant, "", "",
          [⟨"a", "T", "\x7b\x7d"⟩, ⟨"b", "T", "\x7b\x7d"⟩]⟩⟩]⟩] [] 1 0 "" [] =
      ⟨[mkAssistantMessage ""
          (pruneToolCalls (fun _ => true)
            [⟨"a", "T", "\x7b\x7d"⟩, ⟨"b", "T", "\x7b\x7d"⟩])],
       [], "", some .toolCallBudgetExceeded⟩ :=
  ⟨Or.inl rfl, by decide, by decide, by decide, by decide,
   by
    have h := runLoop_toolBudget_spec ⟨0, 1⟩ (fun _ => true) (fun _ => "env")
      [] ⟨"tool_calls", ⟨.assistant, "", "",
        [⟨"a", "T", "\x7b\x7d"⟩, ⟨"b", "T", "\x7b\x7d"⟩]⟩⟩ [] [] 1 0 "" []
      (Or.inl rfl) (by decide) (by decide) (by decide) (by decide)
    simpa using h⟩

lemma runLoop_turnLimit (policy : Policy) (jsonValid : String → Bool)
    (executeTool : ToolCall → String)
    (responses : List (Except Unit CompletionResponse))
    (history : List Message) (turnNumber toolCallsUsed : Nat)
    (lastText : String) (executed : List ToolCall)
    (hpos : policy.maxTurns > 0) (hover : turnNumber > policy.maxTurns) :
    runLoop policy false jsonValid executeTool responses history turnNumber
        toolCallsUsed lastText executed =
      ⟨history, executed, lastText, some .maxTurnsExceeded⟩ := by
  cases responses with
  | nil =>
    simp only [runLoop, Bool.false_eq_true, if_false]
    rw [if_pos ⟨hpos, hover⟩]
  | cons r rs =>
    cases r with
    | error e =>
      simp only [runLoop, Bool.false_eq_true, if_false]
      rw [if_pos ⟨hpos, hover⟩]
    | ok resp =>
      simp only [runLoop, Bool.false_eq_true, if_false]
      rw [if_pos ⟨hpos, hover⟩]

/-- C5: the turn-limit check fires exactly at the head of the loop when
`maxTurns > 0` and the turn counter exceeds it, leaving history (and the
executed-call list) untouched; and, concretely, `maxTurns = 1` with a
tool-call-requesting first completion still executes that turn's call,
appends its tool-result message, and only then fails with the max-turns
error upon beginning turn 2 — with the initially appended user message
still in history. -/
theorem runLoop_maxTurns_spec :
    (∀ (policy : Policy) (jsonValid : String → Bool)
       (executeTool : ToolCall → String)
       (responses : List (Except Unit CompletionResponse))
       (history : List Message) (turnNumber toolCallsUsed : Nat)
       (lastText : String) (executed : List ToolCall),
       policy.maxTurns > 0 → turnNumber > policy.maxTurns →
       runLoop policy false jsonValid executeTool responses history turnNumber
           toolCallsUsed lastText executed =
         ⟨history, executed, lastText, some .maxTurnsExceeded⟩) ∧
    (∀ (jsonValid : String → Bool) (executeTool : ToolCall → String)
       (finishReason content : String) (toolCall : ToolCall)
       (rest : List (Except Unit CompletionResponse))
       (history : List Message) (prompt : String),
       finishReason ≠ "stop" →
       pruneToolCalls jsonValid [toolCall] = [normalizeToolCall jsonValid toolCall] →
       RunPrompt ⟨1, 0⟩ false jsonValid executeTool
           (.ok ⟨[⟨finishReason, ⟨.assistant, content, "", [toolCall]⟩⟩]⟩ :: rest)
           history prompt =
         ⟨history ++ [mkUserMessage prompt,
            mkAssistantMessage content [normalizeToolCall jsonValid toolCall],
            mkToolMessage (executeTool (normalizeToolCall jsonValid toolCall))
              (normalizeToolCall jsonValid toolCall).id],
          [normalizeToolCall jsonValid toolCall],
          if trimSpace content ≠ "" then content else "",
          some .maxTurnsExceeded⟩) := by
  constructor
  · intro policy jsonValid executeTool responses history turnNumber
      toolCallsUsed lastText executed hpos hover
    exact runLoop_turnLimit policy jsonValid executeTool responses history
      turnNumber toolCallsUsed lastText executed hpos hover
  · intro jsonValid executeTool finishReason content toolCall rest history
      prompt hstop hprune
    unfold RunPrompt
    have hcount : (pruneToolCalls jsonValid [toolCall]).length = 1 := by
      rw [hprune]
      rfl
    simp only [runLoop, Bool.false_eq_true, if_false]
    rw [if_neg (by omega : ¬ ((⟨1, 0⟩ : Policy).maxTurns > 0 ∧ 1 > (⟨1, 0⟩ : Policy).maxTurns))]
    rw [if_neg (by simp [hstop, hcount])]
    rw [if_neg (by simp : ¬ ((⟨1, 0⟩ : Policy).maxToolCalls > 0 ∧
      0 + (pruneToolCalls jsonValid
        (⟨finishReason, ⟨.assistant, content, "", [toolCall]⟩⟩ : Choice).message.toolCalls).length >
        (⟨1, 0⟩ : Policy).maxToolCalls))]
    rw [runLoop_turnLimit _ _ _ _ _ _ _ _ _ (by decide) (by decide)]
    simp [hprune, mkAssistantMessage, mkUserMessage, mkToolMessage]

/-- Witness for `runLoop_maxTurns_spec`: `maxTurns = 1`, one tool call on
turn 1 — the call executes and its result message is appended before the
max-turns error fires on turn 2. -/
theorem runLoop_maxTurns_spec_witness :
    (("tool_calls" : String) ≠ "stop" ∧
     pruneToolCalls (fun _ => true) [⟨"a", "T", "\x7b\x7d"⟩] =
       [normalizeToolCall (fun _ => true) ⟨"a", "T", "\x7b\x7d"⟩]) ∧
    RunPrompt ⟨1, 0⟩ false (fun _ => true) (fun _ => "env")
        [.ok ⟨[⟨"tool_calls", ⟨.assistant, "", "", [⟨"a", "T", "\x7b\x7d"⟩]⟩⟩]⟩]
        [] "q" =
      ⟨[] ++ [mkUserMessage "q",
        mkAssistantMessage "" [normalizeToolCall (fun _ => true) ⟨"a", "T", "\x7b\x7d"⟩],
        mkToolMessage ((fun _ => "env") (normalizeToolCall (fun _ => true) ⟨"a", "T", "\x7b\x7d"⟩))
          (normalizeToolCall (fun _ => true) ⟨"a", "T", "\x7b\x7d"⟩).id],
       [normalizeToolCall (fun _ => true) ⟨"a", "T", "\x7b\x7d"⟩],
       if trimSpace "" ≠ "" then "" else "",
       some .maxTurnsExceeded⟩ :=
  ⟨⟨by decide, rfl⟩,
   runLoop_maxTurns_spec.2 (fun _ => true) (fun _ => "env") "tool_calls" ""
     ⟨"a", "T", "\x7b\x7d"⟩ [] [] "q" (by decide) rfl⟩

/-! ### Tool registry and envelope boundary -/

/-- C6: for every registered tool name (lookup succeeds), a blank `cwd` or
`allowed_root` yields `matched = true` with the invalid-context error
envelope, and an already-cancelled context yields the cancellation error
envelope — in both cases the right-hand side is a fixed envelope that does
not refer to the capability's `execute` function at all (and the theorem
holds for every such function), so the capability is never invoked; the
eagerly built `meta` carries the tool name in both cases. -/
theorem registryExecute_earlyExit_spec :
    ∀ (jsonValid : String → Bool) (toolList : List ToolImpl)
      (toolCall : ToolCall) (toolContext : ToolContext) (tool : ToolImpl),
      registryLookup toolList toolCall.name = some tool →
      ((trimSpace toolContext.cwd = "" ∨ trimSpace toolContext.allowedRoot = "") →
        registryExecute jsonValid toolList toolCall toolContext =
          (ErrorEnvelope "invalid tool context: cwd and allowed_root are required"
            (buildMeta tool toolContext), true)) ∧
      (trimSpace toolContext.cwd ≠ "" → trimSpace toolContext.allowedRoot ≠ "" →
        toolContext.ctx = .canceled →
        registryExecute jsonValid toolList toolCall toolContext =
          (ErrorEnvelope "tool execution cancelled"
            (buildMeta tool toolContext), true)) ∧
      ("tool", .str tool.name) ∈ buildMeta tool toolContext := by
  intro jsonValid toolList toolCall toolContext tool hlookup
  refine ⟨?_, ?_, ?_⟩
  · intro hblank
    simp only [registryExecute, hlookup]
    rw [if_pos (by rcases hblank with h | h <;> simp [h])]
  · intro hcwd hroot hctx
    simp only [registryExecute, hlookup]
    rw [if_neg (by simp [hcwd, hroot])]
    rw [hctx]
  · simp [buildMeta]

/-- Witness for `registryExecute_earlyExit_spec`: blank `cwd` on a
registered tool. -/
theorem registryExecute_earlyExit_spec_witness :
    (registryLookup [⟨"Fake", fun _ => .ok none⟩]
        (⟨"1", "Fake", "x"⟩ : ToolCall).name =
          some ⟨"Fake", fun _ => .ok none⟩ ∧
     (trimSpace "" = "" ∨ trimSpace "/tmp" = "")) ∧
    registryExecute (fun _ => true) [⟨"Fake", fun _ => .ok none⟩]
        ⟨"1", "Fake", "x"⟩ ⟨"", "/tmp", 0, .active, ""⟩ =
      (ErrorEnvelope "invalid tool context: cwd and allowed_root are required"
        (buildMeta ⟨"Fake", fun _ => .ok none⟩ ⟨"", "/tmp", 0, .active, ""⟩),
       true) :=
  ⟨⟨rfl, Or.inl rfl⟩,
   (registryExecute_earlyExit_spec (fun _ => true) [⟨"Fake", fun _ => .ok none⟩]
       ⟨"1", "Fake", "x"⟩ ⟨"", "/tmp", 0, .active, ""⟩
       ⟨"Fake", fun _ => .ok none⟩ rfl).1 (Or.inl rfl)⟩

/-- C7 counterexample: `SuccessEnvelope` applied to the Go `nil` interface
value (a possible tool result, dropped by the `data,omitempty` tag)
produces an envelope whose JSON object has neither a `data` nor an
`error` member — refuting "for every possible tool result value, a
success envelope carries data". -/
theorem successEnvelope_nil_counterexample :
    SuccessEnvelope none [] = "\x7b\"ok\":true\x7d" ∧
    envelopeKeys ⟨true, none, none, []⟩ = ["ok"] :=
  ⟨rfl, rfl⟩

/-- C7 (amended): every envelope string produced by `SuccessEnvelope` /
`ErrorEnvelope` — and the fixed fallback — is the rendering of a JSON
object in which `ok` is always present; a success envelope for a non-nil
result carries `data` and no `error`, an error envelope carries `error`
and no `data`, and a success envelope for a Go `nil` result carries
neither. -/
theorem envelope_shape_amended :
    (∀ (d : Json) (meta : List (String × Json)),
       SuccessEnvelope (some d) meta =
         renderJson (.obj (envelopeFields ⟨true, some d, none, meta⟩)) ∧
       "ok" ∈ envelopeKeys ⟨true, some d, none, meta⟩ ∧
       "data" ∈ envelopeKeys ⟨true, some d, none, meta⟩ ∧
       "error" ∉ envelopeKeys ⟨true, some d, none, meta⟩) ∧
    (∀ (message : String) (meta : List (String × Json)),
       ErrorEnvelope message meta =
         renderJson (.obj (envelopeFields ⟨false, none, some ⟨message⟩, meta⟩)) ∧
       "ok" ∈ envelopeKeys ⟨false, none, some ⟨message⟩, meta⟩ ∧
       "error" ∈ envelopeKeys ⟨false, none, some ⟨message⟩, meta⟩ ∧
       "data" ∉ envelopeKeys ⟨false, none, some ⟨message⟩, meta⟩) ∧
    (∀ (meta : List (String × Json)),
       SuccessEnvelope none meta =
         renderJson (.obj (envelopeFields ⟨true, none, none, meta⟩)) ∧
       "ok" ∈ envelopeKeys ⟨true, none, none, meta⟩ ∧
       "data" ∉ envelopeKeys ⟨true, none, none, meta⟩ ∧
       "error" ∉ envelopeKeys ⟨true, none, none, meta⟩) ∧
    fallbackEnvelopeText =
      renderJson (.obj [("ok", .bool false),
        ("error", .obj [("message",
          .str "failed to encode tool response envelope")])]) := by
  refine ⟨?_, ?_, ?_, rfl⟩
  · intro d meta
    refine ⟨rfl, ?_, ?_, ?_⟩ <;> cases meta <;>
      simp [envelopeKeys, envelopeFields]
  · intro message meta
    refine ⟨rfl, ?_, ?_, ?_⟩ <;> cases meta <;>
      simp [envelopeKeys, envelopeFields]
  · intro meta
    refine ⟨rfl, ?_, ?_, ?_⟩ <;> cases meta <;>
      simp [envelopeKeys, envelopeFields]

/-! ### EditPatch -/

/-- C8: `editPatchCore` fails on an empty `old_string` and on zero
occurrences; otherwise with `replace_all = false` it replaces exactly the
first occurrence and reports `replacements = 1`, with `replace_all = true`
it replaces all occurrences and reports `replacements` equal to the
occurrence count; in both cases `total_matches` is the occurrence count;
and concretely, `"hello" → "hola"` on `"hello world"` with
`replace_all = false` yields `"hola world"` with
`total_matches = replacements = 1`. -/
theorem editPatchCore_spec :
    (∀ (newString : String) (replaceAllFlag : Bool) (content : String),
       editPatchCore "" newString replaceAllFlag content =
         .error .emptyOldString) ∧
    (∀ (oldString newString : String) (replaceAllFlag : Bool)
       (content : String),
       oldString ≠ "" → countOcc oldString.data content.data = 0 →
       editPatchCore oldString newString replaceAllFlag content =
         .error .oldStringNotFound) ∧
    (∀ (oldString newString content : String),
       oldString ≠ "" → countOcc oldString.data content.data ≠ 0 →
       editPatchCore oldString newString false content =
         .ok ⟨⟨replaceFirstOcc oldString.data newString.data content.data⟩,
              1, countOcc oldString.data content.data⟩) ∧
    (∀ (oldString newString content : String),
       oldString ≠ "" → countOcc oldString.data content.data ≠ 0 →
       editPatchCore oldString newString true content =
         .ok ⟨⟨replaceAllOcc oldString.data newString.data content.data⟩,
              countOcc oldString.data content.data,
              countOcc oldString.data content.data⟩) ∧
    editPatchCore "hello" "hola" false "hello world" =
      .ok ⟨"hola world", 1, 1⟩ := by
  refine ⟨?_, ?_, ?_, ?_, rfl⟩
  · intro newString replaceAllFlag content
    simp [editPatchCore]
  · intro oldString newString replaceAllFlag content hne hzero
    simp [editPatchCore, hne, hzero]
  · intro oldString newString content hne hnz
    simp [editPatchCore, hne, hnz]
  · intro oldString newString content hne hnz
    simp [editPatchCore, hne, hnz]

/-- Witness for `editPatchCore_spec`: first-only replacement with two
matches present. -/
theorem editPatchCore_spec_witness :
    (("aba" : String) ≠ "" ∧
     countOcc ("aba" : String).data ("abababa" : String).data ≠ 0) ∧
    editPatchCore "aba" "X" false "abababa" = .ok ⟨"Xbaba", 1, 2⟩ :=
  ⟨⟨by decide, by decide⟩,
   editPatchCore_spec.2.2.1 "aba" "X" "abababa" (by decide) (by decide)⟩

/-! ### Bash command policy -/

/-- C9: `validateCommandPolicy` rejects any command matching the fixed
destructive blocklist regardless of the configured lists; otherwise a
malformed denylist is an error, then any denylist match blocks (before
the allowlist is even compiled), then a malformed allowlist is an error,
then a non-empty allowlist with no match blocks; every other command
passes.  Parametric in the regexp engine (`matchPat`) and compiler
(`compileOk`). -/
theorem validateCommandPolicy_spec :
    ∀ (matchPat : String → String → Bool) (compileOk : String → Bool)
      (denyRaw allowRaw command : String),
      (blockedCommandPatterns.any (fun p => matchPat p command) = true →
        validateCommandPolicy matchPat compileOk denyRaw allowRaw command =
          .error .blockedFixed) ∧
      (blockedCommandPatterns.any (fun p => matchPat p command) = false →
        compilePolicyPatterns compileOk denyRaw = .error () →
        validateCommandPolicy matchPat compileOk denyRaw allowRaw command =
          .error .invalidDenylist) ∧
      (∀ denyPats,
        blockedCommandPatterns.any (fun p => matchPat p command) = false →
        compilePolicyPatterns compileOk denyRaw = .ok denyPats →
        denyPats.any (fun p => matchPat p command) = true →
        validateCommandPolicy matchPat compileOk denyRaw allowRaw command =
          .error .blockedDenylist) ∧
      (∀ denyPats,
        blockedCommandPatterns.any (fun p => matchPat p command) = false →
        compilePolicyPatterns compileOk denyRaw = .ok denyPats →
        denyPats.any (fun p => matchPat p command) = false →
        compilePolicyPatterns compileOk allowRaw = .error () →
        validateCommandPolicy matchPat compileOk denyRaw allowRaw command =
          .error .invalidAllowlist) ∧
      (∀ denyPats allowPats,
        blockedCommandPatterns.any (fun p => matchPat p command) = false →
        compilePolicyPatterns compileOk denyRaw = .ok denyPats →
        denyPats.any (fun p => matchPat p command) = false →
        compilePolicyPatterns compileOk allowRaw = .ok allowPats →
        allowPats ≠ [] →
        allowPats.any (fun p => matchPat p command) = false →
        validateCommandPolicy matchPat compileOk denyRaw allowRaw command =
          .error .blockedAllowlist) ∧
      (∀ denyPats allowPats,
        blockedCommandPatterns.any (fun p => matchPat p command) = false →
        compilePolicyPatterns compileOk denyRaw = .ok denyPats →
        denyPats.any (fun p => matchPat p command) = false →
        compilePolicyPatterns compileOk allowRaw = .ok allowPats →
        (allowPats = [] ∨
          allowPats.any (fun p => matchPat p command) = true) →
        validateCommandPolicy matchPat compileOk denyRaw allowRaw command =
          .ok ()) := by
  intro matchPat compileOk denyRaw allowRaw command
  refine ⟨?_, ?_, ?_, ?_, ?_, ?_⟩
  · intro hfixed
    simp [validateCommandPolicy, hfixed]
  · intro hfixed hdeny
    simp [validateCommandPolicy, hfixed, hdeny]
  · intro denyPats hfixed hdeny hmatch
    simp [validateCommandPolicy, hfixed, hdeny, hmatch]
  · intro denyPats hfixed hdeny hmatch hallow
    simp [validateCommandPolicy, hfixed, hdeny, hmatch, hallow]
  · intro denyPats allowPats hfixed hdeny hmatch hallow hne hnomatch
    simp [validateCommandPolicy, hfixed, hdeny, hmatch, hallow, hnomatch,
      List.isEmpty_iff, hne]
  · intro denyPats allowPats hfixed hdeny hmatch hallow hpass
    rcases hpass with h | h
    · simp [validateCommandPolicy, hfixed, hdeny, hmatch, hallow, h]
    · simp [validateCommandPolicy, hfixed, hdeny, hmatch, hallow, h,
        List.isEmpty_iff]

/-- Witness for `validateCommandPolicy_spec`: under a matcher that matches
everything, the fixed blocklist fires regardless of configuration. -/
theorem validateCommandPolicy_spec_witness :
    blockedCommandPatterns.any (fun p => (fun _ _ => true) p "rm -rf /") =
      true ∧
    validateCommandPolicy (fun _ _ => true) (fun _ => true) "" ""
      "rm -rf /" = .error .blockedFixed :=
  ⟨by decide,
   (validateCommandPolicy_spec (fun _ _ => true) (fun _ => true) "" ""
      "rm -rf /").1 (by decide)⟩

/-! ### Session store -/

/-- C10: `Load` and `Save` reject every non-blank session ID that fails
the `^[A-Za-z0-9][A-Za-z0-9_-]\x7b0,127\x7d$` pattern with an error, for
every possible behaviour of the filesystem and (un)marshalling functions
— so the filesystem is never touched; and for a valid non-blank ID the
computed session file path is exactly the sessions directory joined with
`<id>.json`, whose file name contains no path separator and no dot beyond
the `.json` extension (the ID itself has neither), so the path never
leaves the sessions directory. -/
theorem sessionStore_keyValidation_spec :
    (∀ (sessionsDir : String) (readFile : String → Except FileReadErr String)
       (unmarshal : String → Except Unit (List Message)) (sessionID : String),
       trimSpace sessionID ≠ "" → validSessionID (trimSpace sessionID) = false →
       loadSession sessionsDir readFile unmarshal sessionID =
         .error .invalidSessionID) ∧
    (∀ (sessionsDir : String) (marshal : List Message → Except Unit String)
       (mkdirAll : String → Except Unit Unit)
       (writeFile : String → String → Except Unit Unit)
       (sessionID : String) (history : List Message),
       trimSpace sessionID ≠ "" → validSessionID (trimSpace sessionID) = false →
       saveSession sessionsDir marshal mkdirAll writeFile sessionID history =
         .error .invalidSessionID) ∧
    (∀ (sessionsDir sessionID normalizedID : String),
       normalizeSessionID sessionID = .ok normalizedID → normalizedID ≠ "" →
       sessionFilePath sessionsDir sessionID =
         .ok (sessionsDir ++ "/" ++ (normalizedID ++ ".json")) ∧
       '/' ∉ normalizedID.data ∧ '.' ∉ normalizedID.data) := by
  refine ⟨?_, ?_, ?_⟩
  · intro sessionsDir readFile unmarshal sessionID hblank hinvalid
    simp [loadSession, normalizeSessionID, hblank, hinvalid]
  · intro sessionsDir marshal mkdirAll writeFile sessionID history hblank hinvalid
    simp [saveSession, normalizeSessionID, hblank, hinvalid]
  · intro sessionsDir sessionID normalizedID hnorm hne
    have hvalid : validSessionID normalizedID = true := by
      by_cases hblank : trimSpace sessionID = ""
      · simp [normalizeSessionID, hblank] at hnorm
        exact absurd hnorm.symm hne
      · by_cases hv : validSessionID (trimSpace sessionID) = true
        · simp [normalizeSessionID, hblank, hv] at hnorm
          rw [← hnorm]
          exact hv
        · simp [normalizeSessionID, hblank, hv] at hnorm
    have hchars : ∀ c ∈ normalizedID.data, isSessionIDChar c = true ∨
        isSessionIDStart c = true := by
      intro c hc
      unfold validSessionID at hvalid
      cases hdata : normalizedID.data with
      | nil => simp [hdata] at hc
      | cons c0 rest =>
        rw [hdata] at hvalid hc
        simp only [Bool.and_eq_true] at hvalid
        rcases List.mem_cons.mp hc with rfl | hmem
        · exact Or.inr hvalid.1.1
        · have hall := hvalid.2
          rw [List.all_eq_true] at hall
          exact Or.inl (by simpa using hall c hmem)
    refine ⟨?_, ?_, ?_⟩
    · simp [sessionFilePath, hnorm, joinPath]
    · intro hsep
      rcases hchars _ hsep with h | h <;> revert h <;> decide
    · intro hdot
      rcases hchars _ hdot with h | h <;> revert h <;> decide

/-- Witness for `sessionStore_keyValidation_spec`: the traversal attempt
`../escape` is refused by `Load` under an arbitrary filesystem. -/
theorem sessionStore_keyValidation_spec_witness :
    (trimSpace "../escape" ≠ "" ∧
     validSessionID (trimSpace "../escape") = false) ∧
    loadSession ".shimibot/sessions" (fun _ => .error .other)
      (fun _ => .error ()) "../escape" = .error .invalidSessionID :=
  ⟨⟨by decide, by decide⟩,
   sessionStore_keyValidation_spec.1 ".shimibot/sessions"
     (fun _ => .error .other) (fun _ => .error ()) "../escape"
     (by decide) (by decide)⟩

end ShimiBot
